import Mathlib

/-!
Verification development for `static/keystroke.js` (keystroke-dynamics
capture, export, comparison and analysis).  The repository file contains
three near-duplicate variants of the script; the embedding below follows
the complete, corrected variant (the one the specification is written
from): `KeystrokeRecorder` with the `keyStates` map storing per-key record
indices, `exportPayload`, `compareKeystrokePatterns` with the positive
dwell guard, and `analyzeKeystrokePattern` with the positive-dwell filter.

Modelling conventions:
* Clock readings (`performance.now()`) are modelled at whole-millisecond
  granularity as integers (`ℤ`); on integer inputs `Math.round(a - b)` is
  the identity, so the recorder's roundings are written as plain
  subtractions.  The comparator/analyzer averages, where the source
  divides, are exact rationals (`ℚ`), and their `Math.round x` is
  `⌊x + 1/2⌋` (JS rounds half toward +∞), written `jsRound`.
* JS `Map` is an association list; `Map.set` is only reached after a
  `Map.has` guard in the source, so insertion is modelled as `cons`.
* `null` fields are `Option`; JS truthiness tests on numbers (`!startTime`)
  are modelled explicitly (`none` or `0` are falsy).
* Console logging and DOM wiring, which do not touch the captured state,
  are not part of the model.
-/

/-- JS `Math.round`: round half toward positive infinity. -/
def jsRound (q : ℚ) : ℤ := ⌊q + 1/2⌋

/-- One entry of the recorder's `timings` array: pushed by `onKeyDown` as
`{key, press_time, release_time: null, index}`. -/
structure SessionRec where
  key : String
  press_time : ℤ
  release_time : Option ℤ
  index : Nat
deriving DecidableEq, Repr

/-- The mutable closure state of one `KeystrokeRecorder`:
`timings`, `startTime`, `isRecording`, `keyStates`.  A `keyStates` value is
the pair `(startTime, index)` stored by `onKeyDown`. -/
structure Session where
  timings : List SessionRec
  startTime : Option ℤ
  isRecording : Bool
  keyStates : List (String × (ℤ × Nat))
deriving DecidableEq, Repr

/-- Fresh recorder state: empty arrays, `startTime = null`, not recording. -/
def initSession : Session :=
  { timings := [], startTime := none, isRecording := false, keyStates := [] }

/-- JS `Map.get` on an association list (first match wins). -/
def lookupA {α : Type} : List (String × α) → String → Option α
  | [], _ => none
  | (k0, v) :: rest, k => if k0 = k then some v else lookupA rest k

/-- JS `Map.delete` on an association list (removes the first match; the
recorder never stores a key twice, see `KeyInv`). -/
def eraseA {α : Type} : List (String × α) → String → List (String × α)
  | [], _ => []
  | (k0, v) :: rest, k => if k0 = k then rest else (k0, v) :: eraseA rest k

/-- The mutation `if (timings[i] && timings[i].release_time === null)
timings[i].release_time = v` from `onKeyUp`: out-of-bounds indices and
already-released records are left untouched. -/
def setReleaseAt : List SessionRec → Nat → ℤ → List SessionRec
  | [], _, _ => []
  | r :: rs, 0, v =>
      (if r.release_time = none then { r with release_time := some v } else r) :: rs
  | r :: rs, Nat.succ n, v => r :: setReleaseAt rs n v

/-- `startRecording()`: clears `timings` and `keyStates`, sets `startTime`
to the current clock reading, sets `isRecording`. -/
def startRecording (cur : ℤ) : Session :=
  { timings := [], startTime := some cur, isRecording := true, keyStates := [] }

/-- `onKeyDown(ev)` for key `k` at clock reading `cur`.  Note the lazy
`if (!startTime) startTime = currentTime` fires when `startTime` is `null`
or `0` (JS truthiness), and runs before the `keyStates.has` repeat guard.
`Math.round(currentTime - startTime)` is the identity on whole-ms clock
readings. -/
def onKeyDown (k : String) (cur : ℤ) (s : Session) : Session :=
  if s.isRecording then
    let st : ℤ :=
      match s.startTime with
      | none => cur
      | some v => if v = 0 then cur else v
    let relativeTime : ℤ := cur - st
    if (lookupA s.keyStates k).isSome then
      { s with startTime := some st }
    else
      { s with
          startTime := some st,
          keyStates := (k, (relativeTime, s.timings.length)) :: s.keyStates,
          timings := s.timings ++
            [{ key := k, press_time := relativeTime, release_time := none,
               index := s.timings.length }] }
  else s

/-- `onKeyUp(ev)` for key `k` at clock reading `cur`.  Looks up the stored
index for `k`; if absent nothing happens.  A `null` `startTime` coerces to
`0` in the JS subtraction. -/
def onKeyUp (k : String) (cur : ℤ) (s : Session) : Session :=
  if s.isRecording then
    let relativeTime : ℤ := cur - (s.startTime.getD 0)
    match lookupA s.keyStates k with
    | none => s
    | some st =>
        { s with
            timings := setReleaseAt s.timings st.2 relativeTime,
            keyStates := eraseA s.keyStates k }
  else s

/-- One exported `{key, press_time, release_time}` entry. -/
structure ExportTiming where
  key : String
  press_time : ℤ
  release_time : ℤ
deriving DecidableEq, Repr

/-- An exported payload.  `keystroke_timings` is an `Option` because the
comparator/analyzer guard against the field being absent (`none`); the
exporter always produces `some`. -/
structure Payload where
  password : String
  keystroke_timings : Option (List ExportTiming)
  total_time : ℤ
deriving DecidableEq, Repr

/-- `exportPayload()` as a pure function of the state, the clock reading
at export time and the live input value.  `startTime ? round(end-start) : 0`
means a `0` start time also yields `total_time = 0` (JS truthiness).  The
filter `release_time !== null && press_time !== null` keeps exactly the
records with a set release time: `press_time` is always a number in every
record the recorder pushes. -/
def exportPayload (s : Session) (cur : ℤ) (inputValue : String) : Payload :=
  let totalTime : ℤ :=
    match s.startTime with
    | none => 0
    | some st => if st = 0 then 0 else cur - st
  { password := inputValue,
    keystroke_timings := some
      ((s.timings.filter (fun t => t.release_time ≠ none)).map
        (fun t => { key := t.key, press_time := t.press_time,
                    release_time := t.release_time.getD 0 })),
    total_time := totalTime }

/-- `stopRecording()`: sets `isRecording = false` then exports. -/
def stopRecording (s : Session) (cur : ℤ) (inputValue : String) :
    Payload × Session :=
  let s2 := { s with isRecording := false }
  (exportPayload s2 cur inputValue, s2)

/-- The events the recorder reacts to. -/
inductive REvent where
  | start
  | keydown (k : String)
  | keyup (k : String)
  | stopEv
  | resetEv
deriving DecidableEq, Repr

/-- Dispatch one event at a given clock reading. -/
def stepAt (s : Session) : REvent → ℤ → Session
  | REvent.start, t => startRecording t
  | REvent.keydown k, t => onKeyDown k t s
  | REvent.keyup k, t => onKeyUp k t s
  | REvent.stopEv, _ => { s with isRecording := false }
  | REvent.resetEv, _ => initSession

/-- Run a timed event trace from a state. -/
def runFrom (s : Session) (evs : List (REvent × ℤ)) : Session :=
  evs.foldl (fun st e => stepAt st e.1 e.2) s

/-- Run a timed event trace from the fresh state. -/
def runEvents (evs : List (REvent × ℤ)) : Session :=
  runFrom initSession evs

/-- A session state the recorder can actually be in. -/
def Reachable (s : Session) : Prop :=
  ∃ evs : List (REvent × ℤ), s = runEvents evs

/-- Dwell time of an exported entry: `release_time - press_time`. -/
def dwellOf (t : ExportTiming) : ℤ := t.release_time - t.press_time

/-- Loop body of `compareKeystrokePatterns`: accumulate
`|dwell1 - dwell2|` and the valid-comparison count over one aligned pair,
guarded by key equality and `dwell1 > 0 && dwell2 > 0`. -/
def cmpStep (acc : ℤ × Nat) (p : ExportTiming × ExportTiming) : ℤ × Nat :=
  if p.1.key = p.2.key then
    let dwell1 := p.1.release_time - p.1.press_time
    let dwell2 := p.2.release_time - p.2.press_time
    if 0 < dwell1 ∧ 0 < dwell2 then (acc.1 + |dwell1 - dwell2|, acc.2 + 1)
    else acc
  else acc

/-- The whole comparison loop (`for i < minLength`) over the positionally
aligned pairs. -/
def compareAcc (pairs : List (ExportTiming × ExportTiming)) : ℤ × Nat :=
  pairs.foldl cmpStep (0, 0)

/-- Result of `compareKeystrokePatterns`.  The early returns carry no
`avgDifference`/`validComparisons` fields, hence the `Option`s. -/
structure ComparisonResult where
  similar : Bool
  score : ℚ
  reason : String
  avgDifference : Option ℤ
  validComparisons : Option Nat
deriving DecidableEq, Repr

/-- `compareKeystrokePatterns(pattern1, pattern2, threshold)`. -/
def compareKeystrokePatterns (p1 p2 : Payload) (threshold : ℚ) :
    ComparisonResult :=
  match p1.keystroke_timings, p2.keystroke_timings with
  | none, _ => ⟨false, 0, "Datos insuficientes", none, none⟩
  | some _, none => ⟨false, 0, "Datos insuficientes", none, none⟩
  | some timings1, some timings2 =>
    if p1.password ≠ p2.password then
      ⟨false, 0, "Contraseñas diferentes", none, none⟩
    else if 2 < ((timings1.length : ℤ) - (timings2.length : ℤ)).natAbs then
      ⟨false, 0, "Longitudes muy diferentes", none, none⟩
    else
      let acc := compareAcc (timings1.zip timings2)
      if acc.2 = 0 then
        ⟨false, 0, "No hay comparaciones válidas", none, none⟩
      else
        let avgDifference : ℚ := (acc.1 : ℚ) / (acc.2 : ℚ)
        let score : ℚ := max 0 (1 - avgDifference / 150)
        ⟨decide (threshold ≤ score),
         (jsRound (score * 100) : ℚ) / 100,
         if threshold ≤ score then "Patrón consistente"
         else "Patrón inconsistente",
         some (jsRound avgDifference), some acc.2⟩

/-- The `stats` object of an analysis result. -/
structure AnalysisStats where
  avgDwell : ℤ
  avgFlight : ℤ
  totalKeys : Nat
  validDwells : Nat
  totalTime : ℤ
deriving DecidableEq, Repr

/-- Result of `analyzeKeystrokePattern`.  Early returns carry a `reason`
and no `stats`. -/
structure AnalysisResult where
  valid : Bool
  reason : Option String
  anomalies : List String
  stats : Option AnalysisStats
deriving DecidableEq, Repr

/-- The analyzer's `dwellTimes` array: per-record `release - press`,
keeping only positive dwells (the loop `if (dwell > 0) dwellTimes.push`). -/
def dwellList (l : List ExportTiming) : List ℤ :=
  (l.map (fun t => t.release_time - t.press_time)).filter (fun d => 0 < d)

/-- The analyzer's `flightTimes` array: consecutive
`press_{i+1} - release_i`, keeping only non-negative flights
(`if (flight >= 0) flightTimes.push(flight)`). -/
def flightList (l : List ExportTiming) : List ℤ :=
  ((l.zip l.tail).map (fun p => p.2.press_time - p.1.release_time)).filter
    (fun f => 0 ≤ f)

/-- `analyzeKeystrokePattern(data)`.  JS float constants `0.3` and `0.5`
are the exact rationals `3/10` and `1/2`; every quantity compared against
them here is a small integer, where double arithmetic and exact arithmetic
agree. -/
def analyzeKeystrokePattern (data : Payload) : AnalysisResult :=
  match data.keystroke_timings with
  | none => ⟨false, some "Sin datos de timing", [], none⟩
  | some timings =>
    if timings.length = 0 then ⟨false, some "Sin datos de timing", [], none⟩
    else
      let dwellTimes : List ℤ := dwellList timings
      let flightTimes : List ℤ := flightList timings
      if dwellTimes.length = 0 then
        ⟨false, some "No hay dwell times válidos", [], none⟩
      else
        let avgDwell : ℚ := (dwellTimes.sum : ℚ) / (dwellTimes.length : ℚ)
        let avgFlight : ℚ :=
          if 0 < flightTimes.length then
            (flightTimes.sum : ℚ) / (flightTimes.length : ℚ)
          else 0
        let longDwells := (dwellTimes.filter (fun d => 500 < d)).length
        let shortDwells := (dwellTimes.filter (fun d => d < 30)).length
        let negativeFlights := (flightTimes.filter (fun f => f < 0)).length
        let anomalies : List String :=
          (if (timings.length : ℚ) * (3/10) < (longDwells : ℚ) then
            ["Muchas teclas mantenidas demasiado tiempo"] else [])
          ++ (if (timings.length : ℚ) * (3/10) < (shortDwells : ℚ) then
            ["Muchas teclas presionadas muy rápido"] else [])
          ++ (if (flightTimes.length : ℚ) * (1/2) < (negativeFlights : ℚ) then
            ["Demasiadas teclas superpuestas"] else [])
        ⟨anomalies.isEmpty, none, anomalies,
         some ⟨jsRound avgDwell, jsRound avgFlight, timings.length,
               dwellTimes.length, data.total_time⟩⟩

/-- A positionally aligned pair actually contributes to the comparison
totals: equal keys and both dwells strictly positive. -/
def validPair (p : ExportTiming × ExportTiming) : Bool :=
  (p.1.key == p.2.key) && decide (0 < p.1.release_time - p.1.press_time) &&
    decide (0 < p.2.release_time - p.2.press_time)

/-- The `startTime` value in force during a key event: the stored one,
except that a `null` or `0` stored value is lazily replaced by the current
clock reading (`if (!startTime) startTime = currentTime`). -/
def dStart (s : Session) (t : ℤ) : ℤ :=
  match s.startTime with
  | none => t
  | some v => if v = 0 then t else v

/-- `keyStates` bookkeeping invariant, which holds in every reachable
state: every map entry points at an in-bounds, still-open record carrying
its key; every open record is registered in the map under its key at its
own index; and the map never holds a key twice. -/
def KeyInv (s : Session) : Prop :=
  (∀ k v i, lookupA s.keyStates k = some (v, i) →
    ∃ r, s.timings[i]? = some r ∧ r.key = k ∧ r.release_time = none) ∧
  (∀ i r, s.timings[i]? = some r → r.release_time = none →
    ∃ v, lookupA s.keyStates r.key = some (v, i)) ∧
  (s.keyStates.map Prod.fst).Nodup

/-- Timing invariant relative to a lower bound `t` on all future clock
readings: recorded `press_time`s are non-decreasing, a session that never
started has no records, a session whose stored start is `0` has only
`press_time = 0` records (they are re-based on every press, see `dStart`),
and otherwise all `press_time`s are at most `t - startTime`. -/
def TimeInv (s : Session) (t : ℤ) : Prop :=
  List.Sorted (· ≤ ·) (s.timings.map (fun r => r.press_time)) ∧
  (s.startTime = none → s.timings = []) ∧
  (s.startTime = some 0 → ∀ x ∈ s.timings.map (fun r => r.press_time), x = 0) ∧
  (∀ st, s.startTime = some st → st ≠ 0 →
    ∀ x ∈ s.timings.map (fun r => r.press_time), x ≤ t - st)

/-! Arithmetic helpers: the analyzer's JS threshold comparisons against
`0.3` and `0.5`, restated over integers. -/

/-- `count > n * 0.3` over ℚ is `3n < 10·count` over ℕ. -/
theorem ratio30_iff (a b : ℕ) : ((b : ℚ) * (3/10) < (a : ℚ)) ↔ 3 * b < 10 * a := by
  qify
  constructor <;> intro h <;> nlinarith

/-- `count > n * 0.5` over ℚ is `n < 2·count` over ℕ. -/
theorem ratio50_iff (a b : ℕ) : ((b : ℚ) * (1/2) < (a : ℚ)) ↔ b < 2 * a := by
  qify
  constructor <;> intro h <;> nlinarith

/-! Association-list (JS `Map`) lemmas. -/

theorem lookupA_eq_none_iff {α : Type} (m : List (String × α)) (k : String) :
    lookupA m k = none ↔ k ∉ m.map Prod.fst := by
  induction m with
  | nil => simp [lookupA]
  | cons p rest ih =>
    obtain ⟨k0, v⟩ := p
    by_cases h : k0 = k
    · subst h
      simp [lookupA]
    · simp only [lookupA, if_neg h, List.map_cons, List.mem_cons]
      rw [ih]
      constructor
      · intro h1 h2
        rcases h2 with h2 | h2
        · exact h h2.symm
        · exact h1 h2
      · intro h1 h2
        exact h1 (Or.inr h2)

theorem lookupA_eraseA_ne {α : Type} (m : List (String × α)) {k k' : String}
    (h : k' ≠ k) : lookupA (eraseA m k) k' = lookupA m k' := by
  induction m with
  | nil => simp [eraseA]
  | cons p rest ih =>
    obtain ⟨k0, v⟩ := p
    by_cases h0 : k0 = k
    · subst h0
      simp [eraseA, lookupA, Ne.symm h]
    · simp [eraseA, h0, lookupA, ih]

theorem lookupA_eraseA_self {α : Type} (m : List (String × α)) (k : String)
    (hnd : (m.map Prod.fst).Nodup) : lookupA (eraseA m k) k = none := by
  induction m with
  | nil => simp [eraseA, lookupA]
  | cons p rest ih =>
    obtain ⟨k0, v⟩ := p
    simp only [List.map_cons, List.nodup_cons] at hnd
    by_cases h0 : k0 = k
    · subst h0
      simpa [eraseA] using (lookupA_eq_none_iff rest k0).mpr hnd.1
    · simp [eraseA, h0, lookupA, ih hnd.2]

theorem eraseA_map_fst_sublist {α : Type} (m : List (String × α)) (k : String) :
    ((eraseA m k).map Prod.fst).Sublist (m.map Prod.fst) := by
  induction m with
  | nil => simp [eraseA]
  | cons p rest ih =>
    obtain ⟨k0, v⟩ := p
    by_cases h0 : k0 = k
    · rw [show eraseA ((k0, v) :: rest) k = rest by simp [eraseA, h0]]
      exact List.sublist_cons_self k0 (rest.map Prod.fst)
    · simpa [eraseA, h0] using ih.cons₂ k0

/-! Lemmas about the `onKeyUp` record mutation. -/

theorem setReleaseAt_map_press (l : List SessionRec) (i : Nat) (v : ℤ) :
    (setReleaseAt l i v).map (fun r => r.press_time) =
      l.map (fun r => r.press_time) := by
  induction l generalizing i with
  | nil => rfl
  | cons r rs ih =>
    cases i with
    | zero => by_cases h : r.release_time = none <;> simp [setReleaseAt, h]
    | succ n => simp [setReleaseAt, ih]

theorem setReleaseAt_getElem (l : List SessionRec) (i j : Nat) (v : ℤ) :
    (setReleaseAt l i v)[j]? =
      if j = i then
        (l[j]?).map
          (fun r => if r.release_time = none then
            { r with release_time := some v } else r)
      else l[j]? := by
  induction l generalizing i j with
  | nil => simp [setReleaseAt]
  | cons r rs ih =>
    cases i with
    | zero =>
      cases j with
      | zero => simp [setReleaseAt]
      | succ m => simp [setReleaseAt]
    | succ n =>
      cases j with
      | zero => simp [setReleaseAt]
      | succ m => simpa [setReleaseAt, Nat.succ_eq_add_one] using ih n m

/-! Lemmas about the comparison loop. -/

theorem cmpStep_shift (a : ℤ) (b : Nat) (p : ExportTiming × ExportTiming) :
    cmpStep (a, b) p = (a + (cmpStep (0, 0) p).1, b + (cmpStep (0, 0) p).2) := by
  unfold cmpStep
  by_cases h : p.1.key = p.2.key
  · by_cases h2 : p.1.press_time < p.1.release_time ∧
        p.2.press_time < p.2.release_time <;> simp [h, h2, sub_pos]
  · simp [h]

theorem compareAcc_foldl (l : List (ExportTiming × ExportTiming)) :
    ∀ a b, l.foldl cmpStep (a, b) =
      (a + (compareAcc l).1, b + (compareAcc l).2) := by
  induction l with
  | nil =>
    intro a b
    simp [compareAcc]
  | cons p rest ih =>
    intro a b
    have h0 : compareAcc (p :: rest) =
        ((cmpStep (0, 0) p).1 + (compareAcc rest).1,
         (cmpStep (0, 0) p).2 + (compareAcc rest).2) := by
      show rest.foldl cmpStep (cmpStep (0, 0) p) = _
      rw [show cmpStep (0, 0) p =
        ((cmpStep (0, 0) p).1, (cmpStep (0, 0) p).2) from rfl, ih]
    show rest.foldl cmpStep (cmpStep (a, b) p) = _
    rw [cmpStep_shift, show (a + (cmpStep (0, 0) p).1,
      b + (cmpStep (0, 0) p).2) =
      ((a + (cmpStep (0, 0) p).1 : ℤ), (b + (cmpStep (0, 0) p).2 : ℕ)) from rfl,
      ih, h0]
    simp [add_assoc]

theorem compareAcc_cons (p : ExportTiming × ExportTiming)
    (rest : List (ExportTiming × ExportTiming)) :
    compareAcc (p :: rest) =
      ((cmpStep (0, 0) p).1 + (compareAcc rest).1,
       (cmpStep (0, 0) p).2 + (compareAcc rest).2) := by
  show rest.foldl cmpStep (cmpStep (0, 0) p) = _
  rw [show cmpStep (0, 0) p =
    ((cmpStep (0, 0) p).1, (cmpStep (0, 0) p).2) from rfl, compareAcc_foldl]

theorem cmpStep_of_invalid (p : ExportTiming × ExportTiming)
    (h : validPair p = false) (acc : ℤ × Nat) : cmpStep acc p = acc := by
  unfold cmpStep
  by_cases h1 : p.1.key = p.2.key
  · by_cases h2 : p.1.press_time < p.1.release_time ∧
        p.2.press_time < p.2.release_time
    · have hv : validPair p = true := by
        simp [validPair, h1, sub_pos, h2.1, h2.2]
      rw [h] at hv
      exact Bool.noConfusion hv
    · simp [h1, h2, sub_pos]
  · simp [h1]

theorem cmpStep_of_valid (p : ExportTiming × ExportTiming)
    (h : validPair p = true) (acc : ℤ × Nat) :
    cmpStep acc p =
      (acc.1 + |(p.1.release_time - p.1.press_time) -
        (p.2.release_time - p.2.press_time)|, acc.2 + 1) := by
  unfold validPair at h
  simp only [Bool.and_eq_true, beq_iff_eq, decide_eq_true_eq] at h
  unfold cmpStep
  simp [h.1.1, h.1.2, h.2]

/-- Pairs that are skipped by the loop (a key mismatch, or a non-positive
dwell on either side) contribute to neither the accumulated difference nor
the valid-comparison count. -/
theorem compareAcc_filter (l : List (ExportTiming × ExportTiming)) :
    compareAcc l = compareAcc (l.filter validPair) ∧
      (compareAcc l).2 = (l.filter validPair).length := by
  induction l with
  | nil => simp [compareAcc]
  | cons p rest ih =>
    by_cases hv : validPair p
    · rw [List.filter_cons_of_pos hv, compareAcc_cons, compareAcc_cons p]
      constructor
      · rw [show compareAcc rest = compareAcc (rest.filter validPair) from ih.1]
      · show (cmpStep (0, 0) p).2 + (compareAcc rest).2 = _
        rw [cmpStep_of_valid p hv, ih.2, List.length_cons]
        show 0 + 1 + _ = _
        omega
    · rw [List.filter_cons_of_neg (by simpa using hv), compareAcc_cons,
        cmpStep_of_invalid p (by simpa using hv)]
      simpa using ih

/-- Comparing a timing list positionally with itself: zero accumulated
difference, and one valid comparison per entry with a positive dwell. -/
theorem compareAcc_zip_self (l : List ExportTiming) :
    compareAcc (l.zip l) =
      (0, (l.filter (fun t => decide (0 < dwellOf t))).length) := by
  induction l with
  | nil => simp [compareAcc]
  | cons t rest ih =>
    rw [List.zip_cons_cons, compareAcc_cons, ih]
    by_cases h : 0 < t.release_time - t.press_time
    · rw [cmpStep_of_valid (t, t) (by simp [validPair, h])]
      rw [List.filter_cons_of_pos (by simpa [dwellOf] using h)]
      simp [Nat.add_comm]
    · rw [cmpStep_of_invalid (t, t) (by simp [validPair, h])]
      rw [List.filter_cons_of_neg (by simpa [dwellOf] using h)]
      simp

/-- The analyzer never records a negative flight: the `flightTimes` array
was already filtered to non-negative values. -/
theorem flightList_no_negatives (l : List ExportTiming) :
    (flightList l).filter (fun f => f < 0) = [] := by
  unfold flightList
  rw [List.filter_filter]
  rw [List.filter_eq_nil_iff]
  intro a _
  simp only [Bool.and_eq_true, decide_eq_true_eq, not_and]
  intro h1 h2
  omega

/-- Characterization of the anomaly list produced by the analyzer, with
the JS `0.3` threshold comparisons restated over ℕ.  The overlap anomaly
never appears (its count is taken inside the already non-negative
`flightTimes`). -/
theorem analyze_anomalies_char (data : Payload) (l : List ExportTiming)
    (h : data.keystroke_timings = some l) :
    (analyzeKeystrokePattern data).anomalies =
      if (dwellList l).length = 0 then []
      else
        (if 3 * l.length <
            10 * ((dwellList l).filter (fun d => decide (500 < d))).length
         then ["Muchas teclas mantenidas demasiado tiempo"] else [])
        ++ (if 3 * l.length <
            10 * ((dwellList l).filter (fun d => decide (d < 30))).length
         then ["Muchas teclas presionadas muy rápido"] else []) := by
  by_cases h0 : l.length = 0
  · have hl : l = [] := List.length_eq_zero.mp h0
    subst hl
    simp [analyzeKeystrokePattern, h, dwellList]
  · by_cases h1 : (dwellList l).length = 0
    · simp [analyzeKeystrokePattern, h, h0, h1]
    · have hc3 : (flightList l).filter (fun f => f < 0) = [] :=
        flightList_no_negatives l
      have hcond1 : ((l.length : ℚ) * (3/10) <
          ((((dwellList l).filter (fun d => decide (500 < d))).length : ℕ) : ℚ)) ↔
          3 * l.length <
            10 * ((dwellList l).filter (fun d => decide (500 < d))).length :=
        ratio30_iff _ _
      have hcond2 : ((l.length : ℚ) * (3/10) <
          ((((dwellList l).filter (fun d => decide (d < 30))).length : ℕ) : ℚ)) ↔
          3 * l.length <
            10 * ((dwellList l).filter (fun d => decide (d < 30))).length :=
        ratio30_iff _ _
      have hcond3 : ¬ (((flightList l).length : ℚ) * (1/2) <
          ((((flightList l).filter (fun f => decide (f < 0))).length : ℕ) : ℚ)) := by
        rw [hc3]
        simp only [List.length_nil, Nat.cast_zero]
        exact not_lt.mpr (by positivity)
      simp [analyzeKeystrokePattern, h, h0, h1, hcond1, hcond2, hcond3]
      rw [hc3]
      simp only [List.length_nil, Nat.cast_zero]
      positivity

/-! Unfolding lemmas for the event handlers. -/

theorem onKeyDown_not_recording (s : Session) (k : String) (t : ℤ)
    (h : s.isRecording = false) : onKeyDown k t s = s := by
  simp [onKeyDown, h]

theorem onKeyDown_has (s : Session) (k : String) (t : ℤ)
    (h : s.isRecording = true) (hl : (lookupA s.keyStates k).isSome) :
    onKeyDown k t s = { s with startTime := some (dStart s t) } := by
  simp [onKeyDown, h, hl, dStart]

theorem onKeyDown_new (s : Session) (k : String) (t : ℤ)
    (h : s.isRecording = true) (hl : lookupA s.keyStates k = none) :
    onKeyDown k t s =
      { s with
          startTime := some (dStart s t),
          keyStates :=
            (k, (t - dStart s t, s.timings.length)) :: s.keyStates,
          timings := s.timings ++
            [{ key := k, press_time := t - dStart s t, release_time := none,
               index := s.timings.length }] } := by
  simp [onKeyDown, h, hl, dStart]

theorem onKeyUp_not_recording (s : Session) (k : String) (t : ℤ)
    (h : s.isRecording = false) : onKeyUp k t s = s := by
  simp [onKeyUp, h]

theorem onKeyUp_none (s : Session) (k : String) (t : ℤ)
    (h : s.isRecording = true) (hl : lookupA s.keyStates k = none) :
    onKeyUp k t s = s := by
  simp [onKeyUp, h, hl]

theorem onKeyUp_some (s : Session) (k : String) (t : ℤ) (st0 : ℤ × Nat)
    (h : s.isRecording = true) (hl : lookupA s.keyStates k = some st0) :
    onKeyUp k t s =
      { s with
          timings := setReleaseAt s.timings st0.2 (t - s.startTime.getD 0),
          keyStates := eraseA s.keyStates k } := by
  simp [onKeyUp, h, hl]

/-! Preservation of `KeyInv`. -/

theorem keyInv_init : KeyInv initSession := by
  refine ⟨?_, ?_, ?_⟩ <;> simp [initSession, lookupA]

theorem keyInv_start (t : ℤ) : KeyInv (startRecording t) := by
  refine ⟨?_, ?_, ?_⟩ <;> simp [startRecording, lookupA]

theorem keyInv_onKeyDown (s : Session) (hInv : KeyInv s) (k : String)
    (t : ℤ) : KeyInv (onKeyDown k t s) := by
  obtain ⟨hA, hB, hC⟩ := hInv
  by_cases hrec : s.isRecording = true
  case neg =>
    rw [onKeyDown_not_recording s k t (by simpa using hrec)]
    exact ⟨hA, hB, hC⟩
  case pos =>
    cases hlook : lookupA s.keyStates k with
    | some p =>
      rw [onKeyDown_has s k t hrec (by simp [hlook])]
      exact ⟨hA, hB, hC⟩
    | none =>
      rw [onKeyDown_new s k t hrec hlook]
      refine ⟨?_, ?_, ?_⟩
      · intro k1 v i hl
        simp only [lookupA] at hl
        by_cases hkk : k = k1
        · rw [if_pos hkk] at hl
          have hp := Option.some.inj hl
          have hi2 : i = s.timings.length := by
            have := congrArg Prod.snd hp
            simpa using this.symm
          refine ⟨{ key := k, press_time := t - dStart s t,
                    release_time := none, index := s.timings.length },
            ?_, hkk, rfl⟩
          rw [hi2, List.getElem?_concat_length]
        · rw [if_neg hkk] at hl
          obtain ⟨r, hr, hkey, hrel⟩ := hA k1 v i hl
          have hlt : i < s.timings.length := by
            have := List.getElem?_eq_some.mp hr
            exact this.1
          refine ⟨r, ?_, hkey, hrel⟩
          rw [List.getElem?_append, if_pos hlt]
          exact hr
      · intro i r hi hrel
        rw [List.getElem?_append] at hi
        by_cases hlt : i < s.timings.length
        · rw [if_pos hlt] at hi
          obtain ⟨v, hv⟩ := hB i r hi hrel
          by_cases hkey : k = r.key
          · rw [← hkey] at hv
            rw [hlook] at hv
            exact Option.noConfusion hv
          · exact ⟨v, by simp only [lookupA, if_neg hkey]; exact hv⟩
        · rw [if_neg hlt] at hi
          cases hj : i - s.timings.length with
          | zero =>
            rw [hj] at hi
            simp only [List.getElem?_cons_zero, Option.some.injEq] at hi
            subst hi
            have hieq : i = s.timings.length := by omega
            refine ⟨t - dStart s t, ?_⟩
            simp [lookupA, hieq]
          | succ m =>
            rw [hj] at hi
            simp at hi
      · refine List.nodup_cons.mpr ⟨?_, hC⟩
        exact (lookupA_eq_none_iff s.keyStates k).mp hlook

theorem keyInv_onKeyUp (s : Session) (hInv : KeyInv s) (k : String)
    (t : ℤ) : KeyInv (onKeyUp k t s) := by
  obtain ⟨hA, hB, hC⟩ := hInv
  by_cases hrec : s.isRecording = true
  case neg =>
    rw [onKeyUp_not_recording s k t (by simpa using hrec)]
    exact ⟨hA, hB, hC⟩
  case pos =>
    cases hlook : lookupA s.keyStates k with
    | none =>
      rw [onKeyUp_none s k t hrec hlook]
      exact ⟨hA, hB, hC⟩
    | some p =>
      obtain ⟨v0, i0⟩ := p
      rw [onKeyUp_some s k t (v0, i0) hrec hlook]
      obtain ⟨r0, hr0, hk0, hrel0⟩ := hA k v0 i0 hlook
      refine ⟨?_, ?_, ?_⟩
      · intro k1 v i hl
        by_cases hkk : k1 = k
        · rw [hkk, lookupA_eraseA_self s.keyStates k hC] at hl
          exact Option.noConfusion hl
        · rw [lookupA_eraseA_ne s.keyStates hkk] at hl
          obtain ⟨r, hr, hkey, hrel⟩ := hA k1 v i hl
          have hii : i ≠ i0 := by
            intro hii
            rw [hii, hr0] at hr
            obtain rfl := Option.some.inj hr
            exact hkk (hkey ▸ hk0 ▸ rfl)
          refine ⟨r, ?_, hkey, hrel⟩
          rw [setReleaseAt_getElem, if_neg hii]
          exact hr
      · intro i r hi hrel
        rw [setReleaseAt_getElem] at hi
        by_cases hii : i = i0
        · rw [if_pos hii, hii, hr0] at hi
          have hi2 : (if r0.release_time = none then
              { key := r0.key, press_time := r0.press_time,
                release_time := some (t - s.startTime.getD 0),
                index := r0.index } else r0) = r := Option.some.inj hi
          rw [if_pos hrel0] at hi2
          rw [← hi2] at hrel
          exact Option.noConfusion hrel
        · rw [if_neg hii] at hi
          obtain ⟨v, hv⟩ := hB i r hi hrel
          have hkey : r.key ≠ k := by
            intro hkey
            rw [hkey, hlook] at hv
            have hvv := Option.some.inj hv
            exact hii (congrArg Prod.snd hvv).symm
          rw [← lookupA_eraseA_ne s.keyStates hkey] at hv
          exact ⟨v, hv⟩
      · exact (eraseA_map_fst_sublist s.keyStates k).nodup hC

theorem keyInv_stepAt (s : Session) (hInv : KeyInv s) (e : REvent)
    (t : ℤ) : KeyInv (stepAt s e t) := by
  cases e with
  | start => exact keyInv_start t
  | keydown k => exact keyInv_onKeyDown s hInv k t
  | keyup k => exact keyInv_onKeyUp s hInv k t
  | stopEv => exact hInv
  | resetEv => exact keyInv_init

theorem keyInv_runFrom (evs : List (REvent × ℤ)) :
    ∀ s, KeyInv s → KeyInv (runFrom s evs) := by
  induction evs with
  | nil => exact fun s h => h
  | cons e rest ih =>
    intro s h
    exact ih _ (keyInv_stepAt s h e.1 e.2)

theorem keyInv_reachable (s : Session) (h : Reachable s) : KeyInv s := by
  obtain ⟨evs, rfl⟩ := h
  exact keyInv_runFrom evs initSession keyInv_init

/-! Preservation of `TimeInv`. -/

theorem sorted_append_singleton (l : List ℤ) (a : ℤ)
    (hl : List.Sorted (· ≤ ·) l) (ha : ∀ x ∈ l, x ≤ a) :
    List.Sorted (· ≤ ·) (l ++ [a]) := by
  apply List.pairwise_append.mpr
  refine ⟨hl, List.pairwise_singleton _ _, ?_⟩
  intro x hx b hb
  rw [List.mem_singleton] at hb
  rw [hb]
  exact ha x hx

theorem timeInv_mono (s : Session) (t t' : ℤ) (h : TimeInv s t)
    (htt : t ≤ t') : TimeInv s t' := by
  obtain ⟨hs, h1, h2, h3⟩ := h
  refine ⟨hs, h1, h2, ?_⟩
  intro st hst h0 x hx
  have := h3 st hst h0 x hx
  omega

theorem timeInv_init (t : ℤ) : TimeInv initSession t := by
  refine ⟨?_, ?_, ?_, ?_⟩ <;> simp [initSession]

theorem timeInv_start (t0 t : ℤ) : TimeInv (startRecording t0) t := by
  refine ⟨?_, ?_, ?_, ?_⟩ <;> simp [startRecording]

theorem timeInv_transfer (s s2 : Session) (t : ℤ)
    (hm : s2.timings.map (fun r => r.press_time) =
      s.timings.map (fun r => r.press_time))
    (hst : s2.startTime = s.startTime) (h : TimeInv s t) : TimeInv s2 t := by
  obtain ⟨hs, h1, h2, h3⟩ := h
  refine ⟨?_, ?_, ?_, ?_⟩
  · rw [hm]
    exact hs
  · intro hno
    have hnil : s2.timings.map (fun r => r.press_time) = [] := by
      rw [hm, h1 (hst.symm.trans hno)]
      rfl
    exact List.map_eq_nil_iff.mp hnil
  · intro h0
    rw [hm]
    exact h2 (hst.symm.trans h0)
  · intro st hst2 h0
    rw [hm]
    exact h3 st (hst.symm.trans hst2) h0

theorem dStart_eq_zero (s : Session) (t : ℤ) (hd : dStart s t = 0) :
    t = 0 := by
  cases hst : s.startTime with
  | none => simpa [dStart, hst] using hd
  | some v =>
    by_cases h0 : v = 0
    · simpa [dStart, hst, h0] using hd
    · rw [show dStart s t = v by simp [dStart, hst, h0]] at hd
      exact absurd hd h0

theorem timeInv_onKeyDown (s : Session) (k : String) (t : ℤ)
    (h : TimeInv s t) : TimeInv (onKeyDown k t s) t := by
  obtain ⟨hs, h1, h2, h3⟩ := h
  by_cases hrec : s.isRecording = true
  case neg =>
    rw [onKeyDown_not_recording s k t (by simpa using hrec)]
    exact ⟨hs, h1, h2, h3⟩
  case pos =>
    have hbound : ∀ x ∈ s.timings.map (fun r => r.press_time),
        x ≤ t - dStart s t := by
      intro x hx
      cases hst : s.startTime with
      | none =>
        rw [h1 hst] at hx
        simp at hx
      | some v =>
        by_cases h0 : v = 0
        · have hx0 := h2 (by rw [hst, h0]) x hx
          have hdv : dStart s t = t := by simp [dStart, hst, h0]
          omega
        · have hxb := h3 v hst h0 x hx
          have hdv : dStart s t = v := by simp [dStart, hst, h0]
          omega
    have hz : dStart s t = 0 → ∀ x ∈ s.timings.map (fun r => r.press_time),
        x = 0 := by
      intro hd0 x hx
      cases hst : s.startTime with
      | none =>
        rw [h1 hst] at hx
        simp at hx
      | some v =>
        by_cases h0 : v = 0
        · exact h2 (by rw [hst, h0]) x hx
        · have hdv : dStart s t = v := by simp [dStart, hst, h0]
          exact absurd (hdv.symm.trans hd0) h0
    cases hlook : lookupA s.keyStates k with
    | some p =>
      rw [onKeyDown_has s k t hrec (by simp [hlook])]
      refine ⟨hs, ?_, ?_, ?_⟩
      · intro hno
        exact Option.noConfusion hno
      · intro h0
        exact hz (Option.some.inj h0)
      · intro st hst h0 x hx
        have hd : st = dStart s t := (Option.some.inj hst).symm
        rw [hd]
        exact hbound x hx
    | none =>
      rw [onKeyDown_new s k t hrec hlook]
      refine ⟨?_, ?_, ?_, ?_⟩
      · simp only [List.map_append, List.map_cons, List.map_nil]
        exact sorted_append_singleton _ _ hs hbound
      · intro hno
        exact Option.noConfusion hno
      · intro h0
        have hd0 : dStart s t = 0 := Option.some.inj h0
        have ht0 : t = 0 := dStart_eq_zero s t hd0
        simp only [List.map_append, List.map_cons, List.map_nil]
        intro x hx
        rcases List.mem_append.mp hx with hx | hx
        · exact hz hd0 x hx
        · rw [List.mem_singleton] at hx
          rw [hx]
          omega
      · intro st hst h0 x hx
        have hd : st = dStart s t := (Option.some.inj hst).symm
        simp only [List.map_append, List.map_cons, List.map_nil] at hx
        rcases List.mem_append.mp hx with hx | hx
        · rw [hd]
          exact hbound x hx
        · rw [List.mem_singleton] at hx
          rw [hx, hd]

theorem timeInv_onKeyUp (s : Session) (k : String) (t : ℤ)
    (h : TimeInv s t) : TimeInv (onKeyUp k t s) t := by
  by_cases hrec : s.isRecording = true
  case neg =>
    rw [onKeyUp_not_recording s k t (by simpa using hrec)]
    exact h
  case pos =>
    cases hlook : lookupA s.keyStates k with
    | none =>
      rw [onKeyUp_none s k t hrec hlook]
      exact h
    | some p =>
      rw [onKeyUp_some s k t p hrec hlook]
      exact timeInv_transfer s _ t (setReleaseAt_map_press _ _ _) rfl h

theorem timeInv_stepAt (s : Session) (t : ℤ) (h : TimeInv s t)
    (e : REvent) : TimeInv (stepAt s e t) t := by
  cases e with
  | start => exact timeInv_start t t
  | keydown k => exact timeInv_onKeyDown s k t h
  | keyup k => exact timeInv_onKeyUp s k t h
  | stopEv => exact timeInv_transfer s _ t rfl rfl h
  | resetEv => exact timeInv_init t

theorem sorted_press_runFrom (evs : List (REvent × ℤ)) :
    ∀ (s : Session) (t : ℤ), TimeInv s t →
      List.Pairwise (· ≤ ·) (t :: evs.map Prod.snd) →
      List.Sorted (· ≤ ·)
        ((runFrom s evs).timings.map (fun r => r.press_time)) := by
  induction evs with
  | nil =>
    intro s t h _
    exact h.1
  | cons e rest ih =>
    intro s t h hp
    have hte : t ≤ e.2 := (List.pairwise_cons.mp hp).1 e.2 (by simp)
    have h2 : TimeInv s e.2 := timeInv_mono s t e.2 h hte
    have h3 : TimeInv (stepAt s e.1 e.2) e.2 := timeInv_stepAt s e.2 h2 e.1
    have hp2 : List.Pairwise (· ≤ ·) (e.2 :: rest.map Prod.snd) :=
      (List.pairwise_cons.mp hp).2
    exact ih _ _ h3 hp2

theorem jsRound_intCast (n : ℤ) : jsRound (n : ℚ) = n := by
  unfold jsRound
  rw [Int.floor_eq_iff]
  constructor <;> norm_num

/-! Claim theorems. -/

/-- C1, counterexample: for a stopped session (`startTime = 10`,
`isRecording = false`), exporting at clock reading 100 and again at 200
yields different payloads (`total_time` 90 vs 190), and likewise two
repeated `Stop` calls; so repeated exports of a stopped session are not
identical. -/
theorem claim1_counterexample :
    exportPayload ⟨[], some 10, false, []⟩ 100 "x" ≠
      exportPayload ⟨[], some 10, false, []⟩ 200 "x" ∧
    (stopRecording ⟨[], some 10, false, []⟩ 100 "x").1 ≠
      (stopRecording ⟨[], some 10, false, []⟩ 200 "x").1 ∧
    (exportPayload ⟨[], some 10, false, []⟩ 100 "x").total_time = 90 ∧
    (exportPayload ⟨[], some 10, false, []⟩ 200 "x").total_time = 190 := by
  refine ⟨by decide, by decide, by decide, by decide⟩

/-- C1, amended: on a stopped session, `Export` and repeated `Stop` mutate
no session state and always return the same `password` (given the same
live input value) and the same `keystroke_timings`; only `total_time` is
recomputed from the live clock at each call, so two exports agree entirely
exactly when their clock readings do. -/
theorem claim1_amended (s : Session) (cur1 cur2 : ℤ) (pw : String)
    (h : s.isRecording = false) :
    (stopRecording s cur1 pw).2 = s ∧
    (stopRecording s cur1 pw).1 = exportPayload s cur1 pw ∧
    (exportPayload s cur1 pw).password = (exportPayload s cur2 pw).password ∧
    (exportPayload s cur1 pw).keystroke_timings =
      (exportPayload s cur2 pw).keystroke_timings := by
  have hs : ({ s with isRecording := false } : Session) = s := by
    cases s
    simp_all
  refine ⟨hs, ?_, rfl, rfl⟩
  show exportPayload { s with isRecording := false } cur1 pw = _
  rw [hs]

theorem claim1_witness :
    (⟨[], some 10, false, []⟩ : Session).isRecording = false ∧
    (stopRecording ⟨[], some 10, false, []⟩ 100 "x").2 =
      ⟨[], some 10, false, []⟩ :=
  ⟨rfl, (claim1_amended ⟨[], some 10, false, []⟩ 100 200 "x" rfl).1⟩

/-- C2: the `ExcessiveOverlap` anomaly (`"Demasiadas teclas
superpuestas"`) is dead code — `negativeFlights` counts negatives inside
`flightTimes`, which was already filtered to non-negative values — so no
payload is ever flagged.  In particular the payload below has one negative
flight computation out of one total (the claim demands the anomaly), yet
its anomaly list is empty. -/
theorem claim2_overlap_never_flagged :
    (∀ data : Payload, "Demasiadas teclas superpuestas" ∉
      (analyzeKeystrokePattern data).anomalies) ∧
    ((([⟨"a", 0, 100⟩, ⟨"b", 50, 150⟩] : List ExportTiming).zip
        ([⟨"a", 0, 100⟩, ⟨"b", 50, 150⟩] : List ExportTiming).tail).map
        (fun p => p.2.press_time - p.1.release_time) = [-50] ∧
      (analyzeKeystrokePattern
        ⟨"ab", some [⟨"a", 0, 100⟩, ⟨"b", 50, 150⟩], 150⟩).anomalies = []) := by
  constructor
  · intro data
    cases hket : data.keystroke_timings with
    | none => simp [analyzeKeystrokePattern, hket]
    | some l =>
      rw [analyze_anomalies_char data l hket]
      by_cases h1 : (dwellList l).length = 0
      · simp [h1]
      · rw [if_neg h1]
        intro hmem
        rcases List.mem_append.mp hmem with hm | hm
        · by_cases hc : 3 * l.length <
              10 * ((dwellList l).filter (fun d => decide (500 < d))).length
          · rw [if_pos hc, List.mem_singleton] at hm
            exact absurd hm (by decide)
          · rw [if_neg hc] at hm
            exact absurd hm (by simp)
        · by_cases hc : 3 * l.length <
              10 * ((dwellList l).filter (fun d => decide (d < 30))).length
          · rw [if_pos hc, List.mem_singleton] at hm
            exact absurd hm (by decide)
          · rw [if_neg hc] at hm
            exact absurd hm (by simp)
  · refine ⟨by decide, ?_⟩
    rw [analyze_anomalies_char _ [⟨"a", 0, 100⟩, ⟨"b", 50, 150⟩] rfl]
    decide

/-- C3: in any reachable session holding an open (unreleased) record for
key `k`, a further press of `k` leaves the records list unchanged — the
`keyStates.has` guard suppresses key repeat regardless of which other keys
were pressed in between. -/
theorem claim3_repeat_press_ignored (s : Session) (k : String) (t : ℤ)
    (hreach : Reachable s)
    (hopen : ∃ r ∈ s.timings, r.key = k ∧ r.release_time = none) :
    (onKeyDown k t s).timings = s.timings := by
  obtain ⟨hA, hB, hC⟩ := keyInv_reachable s hreach
  obtain ⟨r, hr, hkey, hrel⟩ := hopen
  obtain ⟨i, hi⟩ := List.mem_iff_getElem?.mp hr
  obtain ⟨v, hv⟩ := hB i r hi hrel
  by_cases hrec : s.isRecording = true
  · rw [onKeyDown_has s k t hrec (by rw [← hkey]; simp [hv])]
  · rw [onKeyDown_not_recording s k t (by simpa using hrec)]

theorem claim3_witness :
    Reachable (runEvents [(REvent.start, 0), (REvent.keydown "a", 1),
      (REvent.keydown "b", 2)]) ∧
    (∃ r ∈ (runEvents [(REvent.start, 0), (REvent.keydown "a", 1),
      (REvent.keydown "b", 2)]).timings,
      r.key = "a" ∧ r.release_time = none) ∧
    (onKeyDown "a" 5 (runEvents [(REvent.start, 0), (REvent.keydown "a", 1),
      (REvent.keydown "b", 2)])).timings =
      (runEvents [(REvent.start, 0), (REvent.keydown "a", 1),
        (REvent.keydown "b", 2)]).timings ∧
    ((runEvents [(REvent.start, 0), (REvent.keydown "a", 1),
      (REvent.keydown "a", 2), (REvent.keydown "a", 3),
      (REvent.keyup "a", 4)]).timings.filter
        (fun r => r.key == "a")).length = 1 ∧
    ((runEvents [(REvent.start, 0), (REvent.keydown "a", 1),
      (REvent.keydown "b", 2), (REvent.keydown "a", 3),
      (REvent.keyup "a", 4)]).timings.filter
        (fun r => r.key == "a")).length = 1 :=
  ⟨⟨_, rfl⟩, by decide,
    claim3_repeat_press_ignored _ "a" 5 ⟨_, rfl⟩ (by decide),
    by decide, by decide⟩

/-- C6: the exported `keystroke_timings` are exactly the session records
whose `release_time` is set, in insertion order; in particular a run with
5 presses of which 4 were released exports exactly 4 entries. -/
theorem claim6_export_filters (s : Session) (cur : ℤ) (pw : String) :
    ((exportPayload s cur pw).keystroke_timings = some
      ((s.timings.filter (fun r => r.release_time ≠ none)).map
        (fun r => { key := r.key, press_time := r.press_time,
                    release_time := r.release_time.getD 0 }))) ∧
    ((exportPayload (runEvents [(REvent.start, 0), (REvent.keydown "a", 1),
      (REvent.keydown "b", 2), (REvent.keydown "c", 3),
      (REvent.keydown "d", 4), (REvent.keydown "e", 5),
      (REvent.keyup "a", 6), (REvent.keyup "b", 7), (REvent.keyup "c", 8),
      (REvent.keyup "d", 9)]) 10 "abcde").keystroke_timings.getD
        []).length = 4 :=
  ⟨rfl, by decide⟩

/-- C7: in any reachable session with no open record for key `k` (no
record of key `k` with `release_time` unset), a release of `k` leaves the
records list exactly as it was: it creates no record and mutates none. -/
theorem claim7_unmatched_release_noop (s : Session) (k : String) (t : ℤ)
    (hreach : Reachable s)
    (hnone : ∀ r ∈ s.timings, r.key = k → r.release_time ≠ none) :
    (onKeyUp k t s).timings = s.timings := by
  obtain ⟨hA, hB, hC⟩ := keyInv_reachable s hreach
  by_cases hrec : s.isRecording = true
  case neg => rw [onKeyUp_not_recording s k t (by simpa using hrec)]
  case pos =>
    cases hlook : lookupA s.keyStates k with
    | none => rw [onKeyUp_none s k t hrec hlook]
    | some p =>
      obtain ⟨r0, hr0, hk0, hrel0⟩ := hA k p.1 p.2 hlook
      exact absurd hrel0
        (hnone r0 (List.mem_iff_getElem?.mpr ⟨p.2, hr0⟩) hk0)

theorem claim7_witness :
    Reachable (runEvents [(REvent.start, 0), (REvent.keydown "a", 1),
      (REvent.keyup "a", 2)]) ∧
    (∀ r ∈ (runEvents [(REvent.start, 0), (REvent.keydown "a", 1),
      (REvent.keyup "a", 2)]).timings, r.key = "b" →
        r.release_time ≠ none) ∧
    (onKeyUp "b" 3 (runEvents [(REvent.start, 0), (REvent.keydown "a", 1),
      (REvent.keyup "a", 2)])).timings =
      (runEvents [(REvent.start, 0), (REvent.keydown "a", 1),
        (REvent.keyup "a", 2)]).timings :=
  ⟨⟨_, rfl⟩, by decide,
    claim7_unmatched_release_noop _ "b" 3 ⟨_, rfl⟩ (by decide)⟩

/-- C4: the comparison loop's totals over the positionally aligned pairs
equal the totals over only the pairs with matching keys and two strictly
positive dwells, and the valid-comparison count is the number of such
pairs — so an aligned equal-key pair with either dwell ≤ 0 contributes to
neither the accumulated difference nor the count.  The concrete
comparison has two equal-key positions, one with a zero dwell, and
reports exactly one valid comparison. -/
theorem claim4_nonpositive_dwell_skipped (l1 l2 : List ExportTiming) :
    (compareAcc (l1.zip l2) = compareAcc ((l1.zip l2).filter validPair) ∧
      (compareAcc (l1.zip l2)).2 = ((l1.zip l2).filter validPair).length) ∧
    (compareKeystrokePatterns ⟨"ab", some [⟨"a", 0, 0⟩, ⟨"b", 10, 60⟩], 100⟩
      ⟨"ab", some [⟨"a", 0, 5⟩, ⟨"b", 10, 70⟩], 100⟩
      (7/10)).validComparisons = some 1 :=
  ⟨compareAcc_filter (l1.zip l2), by decide⟩

/-- C9: whenever the two payloads carry timing lists but different
passwords, the comparator returns the password-mismatch result —
`similar = false`, `score = 0`, reason `"Contraseñas diferentes"` — for
every threshold and regardless of the timing content. -/
theorem claim9_password_mismatch (p1 p2 : Payload) (l1 l2 : List ExportTiming)
    (threshold : ℚ) (h1 : p1.keystroke_timings = some l1)
    (h2 : p2.keystroke_timings = some l2)
    (hpw : p1.password ≠ p2.password) :
    compareKeystrokePatterns p1 p2 threshold =
      ⟨false, 0, "Contraseñas diferentes", none, none⟩ := by
  simp [compareKeystrokePatterns, h1, h2, hpw]

theorem claim9_witness :
    compareKeystrokePatterns ⟨"abc", some [⟨"a", 0, 50⟩], 50⟩
      ⟨"xyz", some [⟨"a", 0, 50⟩], 50⟩ 0 =
      ⟨false, 0, "Contraseñas diferentes", none, none⟩ :=
  claim9_password_mismatch _ _ [⟨"a", 0, 50⟩] [⟨"a", 0, 50⟩] 0 rfl rfl
    (by decide)

/-- C10: for any event trace whose clock readings are non-decreasing, the
recorded `press_time`s are non-decreasing in list order, and hence the
exported `keystroke_timings` are sorted by `press_time`. -/
theorem claim10_sorted_press (evs : List (REvent × ℤ))
    (hmono : List.Sorted (· ≤ ·) (evs.map Prod.snd)) :
    List.Sorted (· ≤ ·)
      ((runEvents evs).timings.map (fun r => r.press_time)) ∧
    ∀ (cur : ℤ) (pw : String), List.Sorted (· ≤ ·)
      (((exportPayload (runEvents evs) cur pw).keystroke_timings.getD
        []).map (fun t0 => t0.press_time)) := by
  have hmain : List.Sorted (· ≤ ·)
      ((runEvents evs).timings.map (fun r => r.press_time)) := by
    cases evs with
    | nil => simp [runEvents, runFrom, initSession]
    | cons e rest =>
      apply sorted_press_runFrom (e :: rest) initSession e.2
        (timeInv_init e.2)
      refine List.pairwise_cons.mpr ⟨?_, hmono⟩
      intro b hb
      rcases List.mem_cons.mp hb with hb | hb
      · exact le_of_eq hb.symm
      · exact (List.pairwise_cons.mp hmono).1 b hb
  refine ⟨hmain, ?_⟩
  intro cur pw
  have hget : (exportPayload (runEvents evs) cur pw).keystroke_timings.getD
      [] = ((runEvents evs).timings.filter
        (fun r => r.release_time ≠ none)).map
          (fun r => { key := r.key, press_time := r.press_time,
                      release_time := r.release_time.getD 0 }) := rfl
  rw [hget]
  have hmm : (((runEvents evs).timings.filter
      (fun r => r.release_time ≠ none)).map
        (fun r => ({ key := r.key, press_time := r.press_time,
                     release_time := r.release_time.getD 0 } :
          ExportTiming))).map (fun t0 => t0.press_time) =
      ((runEvents evs).timings.filter
        (fun r => r.release_time ≠ none)).map (fun r => r.press_time) := by
    rw [List.map_map]
    rfl
  rw [hmm]
  exact List.Pairwise.sublist
    (List.Sublist.map _ (List.filter_sublist _)) hmain

theorem claim10_witness :
    List.Sorted (· ≤ ·) ([(REvent.start, 0), (REvent.keydown "a", 1),
      (REvent.keydown "b", 2), (REvent.keyup "a", 3),
      (REvent.keyup "b", 5)].map Prod.snd) ∧
    List.Sorted (· ≤ ·)
      ((runEvents [(REvent.start, 0), (REvent.keydown "a", 1),
        (REvent.keydown "b", 2), (REvent.keyup "a", 3),
        (REvent.keyup "b", 5)]).timings.map (fun r => r.press_time)) :=
  ⟨by decide, (claim10_sorted_press [(REvent.start, 0),
    (REvent.keydown "a", 1), (REvent.keydown "b", 2), (REvent.keyup "a", 3),
    (REvent.keyup "b", 5)] (by decide)).1⟩

theorem jsRound_100 : jsRound (100 : ℚ) = 100 := by
  have h := jsRound_intCast 100
  norm_num at h
  exact h

/-- C5: comparing a payload carrying a timing list with itself, where at
least one entry has a positive dwell, yields the unrounded score 1 (so
the reported rounded `score` is exactly 1) and `similar = true` for every
threshold ≤ 1. -/
theorem claim5_self_comparison (p : Payload) (l : List ExportTiming)
    (threshold : ℚ) (hl : p.keystroke_timings = some l)
    (hpos : ∃ t0 ∈ l, 0 < dwellOf t0) (hthr : threshold ≤ 1) :
    (compareKeystrokePatterns p p threshold).score = 1 ∧
    (compareKeystrokePatterns p p threshold).similar = true := by
  have hcnt : (l.filter (fun t0 => decide (0 < dwellOf t0))).length ≠ 0 := by
    obtain ⟨t0, ht0, hd⟩ := hpos
    have hmem : t0 ∈ l.filter (fun t0 => decide (0 < dwellOf t0)) :=
      List.mem_filter.mpr ⟨ht0, by simpa using hd⟩
    intro hzero
    rw [List.length_eq_zero] at hzero
    rw [hzero] at hmem
    simp at hmem
  have heq : compareKeystrokePatterns p p threshold =
      { similar := decide (threshold ≤ max 0 (1 - (((0:ℤ) : ℚ) /
          (((l.filter (fun t0 => decide (0 < dwellOf t0))).length : ℕ) :
            ℚ)) / 150)),
        score := (jsRound ((max 0 (1 - (((0:ℤ) : ℚ) /
          (((l.filter (fun t0 => decide (0 < dwellOf t0))).length : ℕ) :
            ℚ)) / 150)) * 100) : ℚ) / 100,
        reason := if threshold ≤ max 0 (1 - (((0:ℤ) : ℚ) /
          (((l.filter (fun t0 => decide (0 < dwellOf t0))).length : ℕ) :
            ℚ)) / 150) then "Patrón consistente"
          else "Patrón inconsistente",
        avgDifference := some (jsRound (((0:ℤ) : ℚ) /
          (((l.filter (fun t0 => decide (0 < dwellOf t0))).length : ℕ) :
            ℚ))),
        validComparisons :=
          some (l.filter (fun t0 => decide (0 < dwellOf t0))).length } := by
    simp only [compareKeystrokePatterns, hl, compareAcc_zip_self]
    rw [if_neg (by simp), if_neg (by simp), if_neg hcnt]
  have hmax : max (0:ℚ) (1 - (((0:ℤ) : ℚ) /
      (((l.filter (fun t0 => decide (0 < dwellOf t0))).length : ℕ) :
        ℚ)) / 150) = 1 := by
    norm_num
  rw [heq]
  constructor
  · show (jsRound ((max (0:ℚ) (1 - (((0:ℤ) : ℚ) /
      (((l.filter (fun t0 => decide (0 < dwellOf t0))).length : ℕ) :
        ℚ)) / 150)) * 100) : ℚ) / 100 = 1
    rw [hmax, one_mul, jsRound_100]
    norm_num
  · show decide (threshold ≤ max (0:ℚ) (1 - (((0:ℤ) : ℚ) /
      (((l.filter (fun t0 => decide (0 < dwellOf t0))).length : ℕ) :
        ℚ)) / 150)) = true
    rw [hmax]
    exact decide_eq_true hthr

theorem claim5_witness :
    (⟨"ab", some [⟨"a", 0, 50⟩, ⟨"b", 60, 120⟩], 120⟩ :
      Payload).keystroke_timings = some [⟨"a", 0, 50⟩, ⟨"b", 60, 120⟩] ∧
    (∃ t0 ∈ ([⟨"a", 0, 50⟩, ⟨"b", 60, 120⟩] : List ExportTiming),
      0 < dwellOf t0) ∧
    (compareKeystrokePatterns ⟨"ab", some [⟨"a", 0, 50⟩, ⟨"b", 60, 120⟩], 120⟩
      ⟨"ab", some [⟨"a", 0, 50⟩, ⟨"b", 60, 120⟩], 120⟩ 1).score = 1 ∧
    (compareKeystrokePatterns ⟨"ab", some [⟨"a", 0, 50⟩, ⟨"b", 60, 120⟩], 120⟩
      ⟨"ab", some [⟨"a", 0, 50⟩, ⟨"b", 60, 120⟩], 120⟩ 1).similar = true :=
  ⟨rfl, by decide,
    (claim5_self_comparison _ [⟨"a", 0, 50⟩, ⟨"b", 60, 120⟩] 1 rfl
      (by decide) le_rfl).1,
    (claim5_self_comparison _ [⟨"a", 0, 50⟩, ⟨"b", 60, 120⟩] 1 rfl
      (by decide) le_rfl).2⟩

theorem dwell_filter_long (l : List ExportTiming) :
    (l.map (fun t0 => t0.release_time - t0.press_time)).filter
      (fun d => decide (500 < d)) =
    (dwellList l).filter (fun d => decide (500 < d)) := by
  unfold dwellList
  rw [List.filter_filter]
  apply List.filter_congr
  intro a _
  by_cases ha : (500:ℤ) < a
  · simp [ha]
    omega
  · simp [ha]

theorem dwell_filter_short (l : List ExportTiming) :
    (l.map (fun t0 => t0.release_time - t0.press_time)).filter
      (fun d => decide (0 < d) && decide (d < 30)) =
    (dwellList l).filter (fun d => decide (d < 30)) := by
  unfold dwellList
  rw [List.filter_filter]
  apply List.filter_congr
  intro a _
  rw [Bool.and_comm]

/-- C8, counterexample: the claim counts every dwell < 30ms, but the
analyzer counts only positive dwells.  The payload below has 1 of its 2
entries with dwell < 30ms (namely −5), so the claim's condition
`1 > 2 · 0.3` holds, yet the analyzer does not flag `KeysTooFast`. -/
theorem claim8_counterexample :
    ((([⟨"a", 10, 5⟩, ⟨"b", 0, 100⟩] : List ExportTiming).map
      (fun t0 => t0.release_time - t0.press_time)).filter
        (fun d => decide (d < 30))).length = 1 ∧
    ((2:ℚ) * (3/10) < (1:ℚ)) ∧
    "Muchas teclas presionadas muy rápido" ∉
      (analyzeKeystrokePattern ⟨"ab", some [⟨"a", 10, 5⟩, ⟨"b", 0, 100⟩],
        100⟩).anomalies := by
  refine ⟨by decide, by norm_num, ?_⟩
  rw [analyze_anomalies_char _ [⟨"a", 10, 5⟩, ⟨"b", 0, 100⟩] rfl]
  decide

/-- C8, amended: the analyzer flags `KeysHeldTooLong` exactly when the
number of dwells > 500ms strictly exceeds 30% of the total entry count,
and `KeysTooFast` exactly when the number of *positive* dwells < 30ms
strictly exceeds 30% of the total entry count (dwells ≤ 0 are excluded
from the fast count, unlike the long count where positivity is
automatic). -/
theorem claim8_amended (p : Payload) (l : List ExportTiming)
    (h : p.keystroke_timings = some l) :
    ("Muchas teclas mantenidas demasiado tiempo" ∈
        (analyzeKeystrokePattern p).anomalies ↔
      3 * l.length < 10 * ((l.map (fun t0 => t0.release_time -
        t0.press_time)).filter (fun d => decide (500 < d))).length) ∧
    ("Muchas teclas presionadas muy rápido" ∈
        (analyzeKeystrokePattern p).anomalies ↔
      3 * l.length < 10 * ((l.map (fun t0 => t0.release_time -
        t0.press_time)).filter
          (fun d => decide (0 < d) && decide (d < 30))).length) := by
  rw [analyze_anomalies_char p l h, dwell_filter_long l, dwell_filter_short l]
  by_cases h1 : (dwellList l).length = 0
  · have hd : dwellList l = [] := List.length_eq_zero.mp h1
    rw [if_pos h1, hd]
    simp
  · rw [if_neg h1]
    by_cases hc1 : 3 * l.length <
        10 * ((dwellList l).filter (fun d => decide (500 < d))).length <;>
    by_cases hc2 : 3 * l.length <
        10 * ((dwellList l).filter (fun d => decide (d < 30))).length <;>
      simp [hc1, hc2]

theorem claim8_witness :
    "Muchas teclas mantenidas demasiado tiempo" ∈
      (analyzeKeystrokePattern ⟨"k", some [⟨"a", 0, 600⟩, ⟨"a", 0, 600⟩,
        ⟨"a", 0, 600⟩, ⟨"a", 0, 600⟩, ⟨"a", 0, 100⟩, ⟨"a", 0, 100⟩,
        ⟨"a", 0, 100⟩, ⟨"a", 0, 100⟩, ⟨"a", 0, 100⟩, ⟨"a", 0, 100⟩],
        600⟩).anomalies :=
  ((claim8_amended _ _ rfl).1).mpr (by decide)
